import Mathlib

/-!
# Verification of the gci kanban board core

Shallow embedding of the board TUI core of the `gci` repository
(`board_tui.go`, `internal/usercfg/fuzzy.go`, `main.go`):

* the Filter/Group Engine (`reorderAndGroupIssues`, `filterAndGroupColumn`,
  `FuzzyMatch`, `FuzzyScore`, `NormalizeSearchText`),
* the viewport/windowing logic (`viewportItemsHeight`, `itemsWindowCount`,
  `ensureCursorVisible`),
* the board state machine update paths for scope cycling, background batch
  merges, navigation, resize and data-refresh messages,
* the result-collection loops of the two concurrent loaders
  (`loadColumnsConcurrently`, `loadScopeConcurrently`),
* the scope/string conversions (`scopeFromString`, `scopeToConfigString`).

Modelling conventions:

* Go strings are modelled at the character level (`List Char`), and
  `strings.ToLower` as a character-wise `Char.toLower`; the data the program
  handles (issue keys, status names, filter text) is ASCII, where Go's
  byte-wise iteration and Lean's character lists coincide.
* Go `map` sets are modelled as key lists used only through membership, and
  Go `map[K]V` caches as functions `K → Option V`.
* Go `int` fields (cursor, offset, width, height) are modelled as `Int`.
* The effectful parts (network fetches, dispatched `tea.Cmd` closures) are
  modelled as data: a command value records which scope/columns the closure
  would fetch, and the concurrent collect loops are functions of the arrival
  order of worker results on the results channel.
-/

/-- A Jira issue, restricted to the fields the board core reads:
`Key`, `Fields.Summary`, `Fields.Status.Name`, `Fields.IssueType.Subtask`,
`Fields.Parent.Key`. -/
structure JiraIssue where
  key : String
  summary : String
  statusName : String
  subtask : Bool
  parentKey : String
deriving DecidableEq, Repr

/-- Placeholder issue used as the default of positional lookups in theorem
statements. -/
def defaultIssue : JiraIssue :=
  { key := "", summary := "", statusName := "", subtask := false, parentKey := "" }

/-- `leadsWith pat s` is true when `pat` is an initial segment of `s`
(helper for the substring test). -/
def leadsWith : List Char → List Char → Bool
  | [], _ => true
  | _ :: _, [] => false
  | a :: as, b :: bs => a == b && leadsWith as bs

/-- `hasSubstring pat s` models Go `strings.Contains(s, pat)`:
`pat` occurs contiguously inside `s`. -/
def hasSubstring (pat : List Char) : List Char → Bool
  | [] => leadsWith pat []
  | c :: rest => leadsWith pat (c :: rest) || hasSubstring pat rest

/-- `isBacklog` from `reorderAndGroupIssues`:
`strings.Contains(strings.ToLower(it.Fields.Status.Name), "backlog")`. -/
def isBacklog (it : JiraIssue) : Bool :=
  hasSubstring "backlog".toList (it.statusName.toList.map Char.toLower)

/-- One iteration of the promotion loop of `reorderAndGroupIssues`: a backlog
parent of a ticket already in the top set is moved from the backlog set into
the top set.  The two components are the top set and the backlog set (key
lists used through membership, mirroring the Go `map[string]struct{}` sets). -/
def promoteStep (present : List String) (st : List String × List String)
    (it : JiraIssue) : List String × List String :=
  if st.1.contains it.key then
    if it.subtask && it.parentKey != "" && present.contains it.parentKey then
      (it.parentKey :: st.1, st.2.filter (fun k => k != it.parentKey))
    else st
  else st

/-- `appendGroup` from `reorderAndGroupIssues`: a parent followed by its
subtask children (in original order, restricted to the allow-set). -/
def appendGroup (issues : List JiraIssue) (allow : List String)
    (parent : JiraIssue) : List JiraIssue :=
  parent ::
    issues.filter (fun ch =>
      ch.subtask && ch.parentKey == parent.key && allow.contains ch.key)

/-- One iteration of an output pass of `reorderAndGroupIssues` over the input
list: state is `(seen keys, output so far)`. -/
def passStep (issues : List JiraIssue) (allow : List String)
    (st : List String × List JiraIssue) (it : JiraIssue) :
    List String × List JiraIssue :=
  if !(allow.contains it.key) then st
  else if st.1.contains it.key then st
  else if it.subtask && it.parentKey != "" && allow.contains it.parentKey then st
  else
    let children := issues.filter (fun ch =>
      ch.subtask && ch.parentKey == it.key && allow.contains ch.key)
    (it.key :: children.map (fun ch => ch.key) ++ st.1,
     st.2 ++ appendGroup issues allow it)

/-- `reorderAndGroupIssues` from `board_tui.go`: parents appear before their
subtasks, and for the "To Do" column non-backlog items (including promoted
backlog parents of non-backlog subtasks) come before backlog items. -/
def reorderAndGroupIssues (columnTitle : String) (issues : List JiraIssue) :
    List JiraIssue :=
  if issues.isEmpty then issues
  else
    let present := issues.map (fun it => it.key)
    let sets :=
      if columnTitle == "To Do" then
        let top0 := (issues.filter (fun it => !(isBacklog it))).map (fun it => it.key)
        let back0 := (issues.filter (fun it => isBacklog it)).map (fun it => it.key)
        issues.foldl (promoteStep present) (top0, back0)
      else
        (present, ([] : List String))
    let first := issues.foldl (passStep issues sets.1) ([], [])
    if columnTitle == "To Do" then
      (issues.foldl (passStep issues sets.2) first).2
    else
      first.2

/-- Helper recursion of `FuzzyMatch` (`internal/usercfg/fuzzy.go`): all
pattern characters appear in the target in order. -/
def fuzzyMatchAux : List Char → List Char → Bool
  | [], _ => true
  | _ :: _, [] => false
  | p :: ps, t :: ts => if p == t then fuzzyMatchAux ps ts else fuzzyMatchAux (p :: ps) ts

/-- `FuzzyMatch` from `internal/usercfg/fuzzy.go`. -/
def FuzzyMatch (pattern target : String) : Bool :=
  if pattern == "" then true
  else if target == "" then false
  else fuzzyMatchAux (pattern.toList.map Char.toLower) (target.toList.map Char.toLower)

/-- The scoring loop of `FuzzyScore`: walks the target, awarding
`10 + consecutiveMatches` per matching character and a length penalty of `-1`
for every position beyond three pattern lengths. -/
def fuzzyScoreLoop (p : List Char) (t : List Char) (i pIdx : Nat) (score : Int)
    (consec : Nat) : Int :=
  match t with
  | [] => score
  | c :: ts =>
    if h : pIdx < p.length then
      if p.get ⟨pIdx, h⟩ == c then
        let score1 := score + 10 + ((consec : Int) + 1)
        let score2 := if i > p.length * 3 then score1 - 1 else score1
        fuzzyScoreLoop p ts (i + 1) (pIdx + 1) score2 (consec + 1)
      else
        let score2 := if i > p.length * 3 then score - 1 else score
        fuzzyScoreLoop p ts (i + 1) pIdx score2 0
    else
      let score2 := if i > p.length * 3 then score - 1 else score
      fuzzyScoreLoop p ts (i + 1) pIdx score2 0

/-- `FuzzyScore` from `internal/usercfg/fuzzy.go`: `-1` when there is no
subsequence match, otherwise a score normalised against `len(pattern) * 15`
(Go's `/` on `int` truncates toward zero, i.e. `Int.div`). -/
def FuzzyScore (pattern target : String) : Int :=
  if !(FuzzyMatch pattern target) then -1
  else if pattern == "" then 100
  else
    let p := pattern.toList.map Char.toLower
    let t := target.toList.map Char.toLower
    let score0 := fuzzyScoreLoop p t 0 0 0 0
    let score1 := if hasSubstring p t then score0 + 20 else score0
    let maxScore : Int := (p.length : Int) * 15
    let score2 := if score1 > maxScore then maxScore else score1
    Int.tdiv (score2 * 100) maxScore

/-- `NormalizeSearchText` from `internal/usercfg/fuzzy.go`: lowercase and keep
only letters, digits, spaces and hyphens. -/
def NormalizeSearchText (text : String) : String :=
  String.mk ((text.toList.map Char.toLower).filter (fun r =>
    r.isAlpha || r.isDigit || r == ' ' || r == '-'))

/-- The best of the key score and the summary score, as computed inline in
`filterAndGroupColumn` (`nf` is the already-normalised filter). -/
def bestFuzzy (nf : String) (it : JiraIssue) : Int :=
  let keyScore := FuzzyScore nf (NormalizeSearchText it.key)
  let summaryScore := FuzzyScore nf (NormalizeSearchText it.summary)
  if summaryScore > keyScore then summaryScore else keyScore

/-- One outer iteration of the score sort in `filterAndGroupColumn`: the inner
`j` loop swaps `scored[i]` with any strictly greater later element, so the
first element of the result is the first maximal element of `cur :: rest`, and
each position where a swap happened holds the previous front element. -/
def bubblePass (cur : JiraIssue × Int) :
    List (JiraIssue × Int) → (JiraIssue × Int) × List (JiraIssue × Int)
  | [] => (cur, [])
  | x :: xs =>
    if x.2 > cur.2 then
      let r := bubblePass x xs
      (r.1, cur :: r.2)
    else
      let r := bubblePass cur xs
      (r.1, x :: r.2)

/-- Fuel-indexed form of the outer `i` loop of the score sort. -/
def selSortFuel : Nat → List (JiraIssue × Int) → List (JiraIssue × Int)
  | 0, _ => []
  | _ + 1, [] => []
  | n + 1, x :: xs =>
    let r := bubblePass x xs
    r.1 :: selSortFuel n r.2

/-- The full double loop `for i ... for j ... if scored[j].score > scored[i].score
swap` from `filterAndGroupColumn` (a swap-based selection of the maximum to the
front, repeated on the remainder). -/
def selSort (l : List (JiraIssue × Int)) : List (JiraIssue × Int) :=
  selSortFuel l.length l

/-- `filterAndGroupColumn` from `board_tui.go`: with an empty filter, group
only; otherwise score every issue, keep positive scores, sort by score
(highest first) with the swap loop, then group. -/
def filterAndGroupColumn (title : String) (all : List JiraIssue)
    (filter : String) : List JiraIssue :=
  if filter == "" then reorderAndGroupIssues title all
  else
    let nf := NormalizeSearchText filter
    let scored := all.filterMap (fun it =>
      if bestFuzzy nf it > 0 then some (it, bestFuzzy nf it) else none)
    let sorted := selSort scored
    reorderAndGroupIssues title (sorted.map (fun s => s.1))

/-! ## Scopes -/

/-- `scopeMineOrReported` (`scopeFilter` iota 0 in `main.go`). -/
def scopeMineOrReported : Nat := 0
/-- `scopeMine`. -/
def scopeMine : Nat := 1
/-- `scopeReported`. -/
def scopeReported : Nat := 2
/-- `scopeUnassigned`. -/
def scopeUnassigned : Nat := 3

/-- `scopeFromString` from `board_tui.go`. -/
def scopeFromString (s : String) : Nat :=
  if s == "assigned_or_reported" || s == "Assigned or Reported by Me" then scopeMineOrReported
  else if s == "assigned" || s == "Assigned to Me" then scopeMine
  else if s == "reported" || s == "Reported by Me" then scopeReported
  else if s == "unassigned" || s == "Unassigned" then scopeUnassigned
  else scopeMineOrReported

/-- `scopeToConfigString` from `board_tui.go`. -/
def scopeToConfigString (s : Nat) : String :=
  if s == scopeMineOrReported then "assigned_or_reported"
  else if s == scopeMine then "assigned"
  else if s == scopeReported then "reported"
  else if s == scopeUnassigned then "unassigned"
  else "assigned_or_reported"

/-! ## Board state -/

/-- `kanbanColumnView` from `board_tui.go`.  The `allByScope` cache
(`map[scopeFilter][]JiraIssue`) is modelled as a function into `Option`. -/
structure KanbanColumnView where
  title : String
  statusCategory : String
  issues : List JiraIssue
  allIssues : List JiraIssue
  allByScope : Nat → Option (List JiraIssue)
  cursor : Int
  offset : Int

/-- Placeholder column used as the default of positional lookups in theorem
statements. -/
def defaultCol : KanbanColumnView :=
  { title := "", statusCategory := "", issues := [], allIssues := [],
    allByScope := fun _ => Option.none, cursor := 0, offset := 0 }

/-- `boardModel` from `board_tui.go`, restricted to the fields read or written
by the update paths under verification (the style/help/pending fields are
never consulted by them). -/
structure BoardModel where
  columns : List KanbanColumnView
  selectedCol : Nat
  loading : Bool
  errS : Option String
  curScope : Nat
  width : Int
  height : Int
  filtering : Bool
  filter : String

/-- `viewportItemsHeight` from `board_tui.go`. -/
def viewportItemsHeight (m : BoardModel) : Int :=
  let reserved : Int := if m.filtering then 5 + 2 else 5
  let avail := max 5 (m.height - reserved)
  max 1 (avail - 3)

/-- `itemsWindowCount` from `board_tui.go`: item rows drawn, excluding the two
indicator lines. -/
def itemsWindowCount (m : BoardModel) : Int :=
  let base := viewportItemsHeight m
  if base ≤ 2 then 1 else base - 2

/-- The straight-line body of `ensureCursorVisible` for a non-empty list, as
the exact sequence of conditional assignments of the source: clamp the cursor,
pull the offset, clamp the offset; returns `(cursor, offset)`. -/
def clampWindow (vh len cur off : Int) : Int × Int :=
  let cursor1 := if cur < 0 then 0 else cur
  let cursor2 := if cursor1 > len - 1 then len - 1 else cursor1
  let offset1 := if cursor2 < off then cursor2 else off
  let offset2 := if cursor2 ≥ offset1 + vh then cursor2 - vh + 1 else offset1
  let maxOffset := if len > vh then len - vh else 0
  let offset3 := if offset2 > maxOffset then maxOffset else offset2
  let offset4 := if offset3 < 0 then 0 else offset3
  (cursor2, offset4)

/-- `ensureCursorVisible` from `board_tui.go`. -/
def ensureCursorVisible (m : BoardModel) (c : KanbanColumnView) :
    KanbanColumnView :=
  if c.issues.length = 0 then { c with offset := 0, cursor := 0 }
  else
    { c with
      cursor := (clampWindow (itemsWindowCount m) c.issues.length c.cursor c.offset).1,
      offset := (clampWindow (itemsWindowCount m) c.issues.length c.cursor c.offset).2 }

/-- Modelled from the spec (§4.4): "clamps cursor into `[0, len-1]`; if
cursor < offset, offset := cursor; if cursor ≥ offset + windowHeight,
offset := cursor - windowHeight + 1; finally clamps offset into
`[0, max(0, len - windowHeight)]`", and both fields `0` for an empty list.
Stated with the model's `itemsWindowCount` as the window height. -/
def ensureCursorVisibleSpec (m : BoardModel) (c : KanbanColumnView) :
    KanbanColumnView :=
  if c.issues.length = 0 then { c with offset := 0, cursor := 0 }
  else
    let len : Int := c.issues.length
    let wh := itemsWindowCount m
    let cursor := max 0 (min c.cursor (len - 1))
    let offsetA := if cursor < c.offset then cursor else c.offset
    let offsetB := if cursor ≥ offsetA + wh then cursor - wh + 1 else offsetA
    let offsetC := max 0 (min offsetB (max 0 (len - wh)))
    { c with cursor := cursor, offset := offsetC }

/-- The commands the board update paths can dispatch, as data: `fetchScope`
records the scope and the column indices the dispatched closure fetches (in
order); `batchPrefetch` records the scopes handed to `loadScopeConcurrently`
after a primary load. -/
inductive BoardCmd where
  | none
  | fetchScope (scope : Nat) (cols : List Nat)
  | batchPrefetch (scopes : List Nat)
deriving DecidableEq, Repr

/-- The per-column body of the scope-cycle loop under key "s": a cached column
swaps in the cached data and re-derives its displayed list, an uncached column
is only re-clamped; the boolean records membership in `missing`. -/
def cycleColumnStep (m : BoardModel) (c : KanbanColumnView) :
    KanbanColumnView × Bool :=
  match c.allByScope m.curScope with
  | some data =>
    (ensureCursorVisible m
      { c with allIssues := data,
               issues := filterAndGroupColumn c.title data m.filter }, false)
  | Option.none => (ensureCursorVisible m c, true)

/-- The key "s" handler of `Update`: advance the scope, swap cached columns,
collect the `missing` indices, blank the displayed lists of missing columns
and dispatch the fetch closure.  The Go closure loops over the full
`colsSnapshot`, so the dispatched fetch covers every column index. -/
def updateScopeCycle (m0 : BoardModel) : BoardModel × BoardCmd :=
  let m := { m0 with curScope := (m0.curScope + 1) % 4 }
  let results := m.columns.map (cycleColumnStep m)
  let cols1 := results.map (fun r => r.1)
  let missing := (List.range results.length).filter
    (fun i => (results.getD i (defaultCol, false)).2)
  if missing.isEmpty then ({ m with columns := cols1 }, BoardCmd.none)
  else
    let cols2 := (List.range cols1.length).map (fun i =>
      let c := cols1.getD i defaultCol
      if missing.contains i then { c with issues := [] } else c)
    ({ m with columns := cols2 },
     BoardCmd.fetchScope m.curScope (List.range m.columns.length))

/-- The loop body of the `lazyBatchLoadedMsg` handler of `Update`, for one
`(idx, issues)` entry: with `idx` in range, write the cache entry for the
message's scope, and refresh the visible fields (raw data, displayed list,
cursor clamp) only when that scope is still the current one. -/
def lazyMergeStep (m : BoardModel) (scope : Nat)
    (cols : List KanbanColumnView) (entry : Nat × List JiraIssue) :
    List KanbanColumnView :=
  if h : entry.1 < cols.length then
    let c := cols.get ⟨entry.1, h⟩
    let c1 := { c with allByScope := fun s =>
      if s = scope then some entry.2 else c.allByScope s }
    let c2 :=
      if scope = m.curScope then
        ensureCursorVisible m
          { c1 with allIssues := entry.2,
                    issues := filterAndGroupColumn c1.title entry.2 m.filter }
      else c1
    cols.set entry.1 c2
  else cols

/-- The `lazyBatchLoadedMsg` handler of `Update`: fold the merge step over
the message entries (Go map iteration; entry order is irrelevant because
distinct indices touch distinct columns). -/
def updateLazyBatch (m : BoardModel) (scope : Nat)
    (byIndex : List (Nat × List JiraIssue)) : BoardModel × BoardCmd :=
  ({ m with columns := byIndex.foldl (lazyMergeStep m scope) m.columns },
   BoardCmd.none)

/-- `Update` on `tea.WindowSizeMsg`: store the size, then re-clamp every
column. -/
def updateResize (m0 : BoardModel) (w h : Int) : BoardModel × BoardCmd :=
  let m := { m0 with width := w, height := h }
  ({ m with columns := m.columns.map (ensureCursorVisible m) }, BoardCmd.none)

/-- `Update` on key "l"/"right"/"tab": advance the selected column and keep
its cursor visible. -/
def updateKeyRight (m0 : BoardModel) : BoardModel × BoardCmd :=
  let m := { m0 with selectedCol := (m0.selectedCol + 1) % m0.columns.length }
  if h : m.selectedCol < m.columns.length then
    ({ m with columns := (m.columns.set m.selectedCol
        (ensureCursorVisible m (m.columns.get ⟨m.selectedCol, h⟩))) },
     BoardCmd.none)
  else (m, BoardCmd.none)

/-- `Update` on key "h"/"left"/"shift+tab" (Go computes
`(selectedCol - 1 + len) % len` over `int`; over `Nat` with
`0 ≤ selectedCol` this is `(selectedCol + len - 1) % len`). -/
def updateKeyLeft (m0 : BoardModel) : BoardModel × BoardCmd :=
  let m := { m0 with selectedCol :=
    (m0.selectedCol + m0.columns.length - 1) % m0.columns.length }
  if h : m.selectedCol < m.columns.length then
    ({ m with columns := (m.columns.set m.selectedCol
        (ensureCursorVisible m (m.columns.get ⟨m.selectedCol, h⟩))) },
     BoardCmd.none)
  else (m, BoardCmd.none)

/-- `Update` on key "j"/"down": move the cursor down when possible.  Go
indexes `m.columns[m.selectedCol]` unconditionally; the out-of-range branch
(where Go would panic) is modelled as the identity and is unreachable while
the selected column is in range. -/
def updateKeyDown (m : BoardModel) : BoardModel × BoardCmd :=
  if h : m.selectedCol < m.columns.length then
    let col := m.columns.get ⟨m.selectedCol, h⟩
    if 0 < col.issues.length ∧ col.cursor < (col.issues.length : Int) - 1 then
      ({ m with columns := (m.columns.set m.selectedCol
          (ensureCursorVisible m { col with cursor := col.cursor + 1 })) },
       BoardCmd.none)
    else (m, BoardCmd.none)
  else (m, BoardCmd.none)

/-- `Update` on key "k"/"up". -/
def updateKeyUp (m : BoardModel) : BoardModel × BoardCmd :=
  if h : m.selectedCol < m.columns.length then
    let col := m.columns.get ⟨m.selectedCol, h⟩
    if 0 < col.issues.length ∧ 0 < col.cursor then
      ({ m with columns := (m.columns.set m.selectedCol
          (ensureCursorVisible m { col with cursor := col.cursor - 1 })) },
       BoardCmd.none)
    else (m, BoardCmd.none)
  else (m, BoardCmd.none)

/-- `Update` on `dataLoadedMsg`: install the loaded columns, re-clamp every
cursor, and dispatch the background prefetch of the three other scopes. -/
def updateDataLoaded (m0 : BoardModel) (cols : List KanbanColumnView) :
    BoardModel × BoardCmd :=
  let m := { m0 with loading := false, errS := Option.none, columns := cols }
  let m := { m with columns := m.columns.map (ensureCursorVisible m) }
  (m, BoardCmd.batchPrefetch
    ([scopeMineOrReported, scopeMine, scopeReported, scopeUnassigned].filter
      (fun sc => sc != m.curScope)))

/-- The events of claim C5: arrow-key navigation and column switching in
normal mode, terminal resize, and completion of a data refresh. -/
inductive BoardEvent where
  | keyUp
  | keyDown
  | keyLeft
  | keyRight
  | resize (w h : Int)
  | dataLoaded (cols : List KanbanColumnView)

/-- The state transition of one event (the model component of the
corresponding `Update` branch). -/
def stepEvent (m : BoardModel) (e : BoardEvent) : BoardModel :=
  match e with
  | BoardEvent.keyUp => (updateKeyUp m).1
  | BoardEvent.keyDown => (updateKeyDown m).1
  | BoardEvent.keyLeft => (updateKeyLeft m).1
  | BoardEvent.keyRight => (updateKeyRight m).1
  | BoardEvent.resize w h => (updateResize m w h).1
  | BoardEvent.dataLoaded cols => (updateDataLoaded m cols).1

/-- `initialBoardModel` from `board_tui.go` (the UI-preference inputs are
parameters; the column selection is guarded by `0 ≤ last < 3` exactly as in
the source). -/
def initialBoardModel (initialScope : Nat) (lastSelectedCol : Int) : BoardModel :=
  { columns := [
      { defaultCol with
        title := "To Do", statusCategory := "To Do" },
      { defaultCol with
        title := "In Progress", statusCategory := "In Progress" },
      { defaultCol with
        title := "Done", statusCategory := "Done" }],
    selectedCol :=
      if 0 ≤ lastSelectedCol ∧ lastSelectedCol < 3 then lastSelectedCol.toNat else 0,
    loading := true, errS := Option.none, curScope := initialScope,
    width := 0, height := 0, filtering := false, filter := "" }

/-! ## Concurrent loaders -/

/-- The error of one fetch task. -/
inductive FetchErr where
  | deadlineExceeded
  | canceled
  | other (msg : String)
deriving DecidableEq, Repr

/-- One value sent on the results channel by a fetch worker
(`columnResult` / `scopeResult` in `board_tui.go`). -/
structure ColumnResult where
  index : Nat
  issues : List JiraIssue
  err : Option FetchErr

/-- The messages the loaders return to the update loop. -/
inductive TeaMsg where
  | dataLoaded (columns : List KanbanColumnView)
  | errMsg (e : FetchErr)
  | lazyBatchLoaded (scope : Nat) (byIndex : List (Nat × List JiraIssue))

/-- The per-result merge of the collect loop of `loadColumnsConcurrently`:
store the raw data, fill the scope cache, re-derive the displayed list and
clamp the cursor against the new length. -/
def mergePrimaryResult (scope : Nat) (filter : String)
    (cols : List KanbanColumnView) (r : ColumnResult) : List KanbanColumnView :=
  if h : r.index < cols.length then
    let c := cols.get ⟨r.index, h⟩
    let c1 := { c with
      allIssues := r.issues,
      allByScope := fun s => if s = scope then some r.issues else c.allByScope s,
      issues := filterAndGroupColumn c.title r.issues filter }
    let c2 :=
      if c1.cursor ≥ (r.issues.length : Int) then
        if r.issues.length = 0 then { c1 with cursor := 0 }
        else { c1 with cursor := (r.issues.length : Int) - 1 }
      else c1
    cols.set r.index c2
  else cols

/-- The collect loop of `loadColumnsConcurrently`, as a function of the
arrival order of worker results: a deadline/cancellation error breaks out with
the partial merge, any other error returns `errMsg` immediately, and an
exhausted arrival list (the `ctx.Done` timeout case) also returns the partial
merge. -/
def loadColumnsConcurrently (cols : List KanbanColumnView) (scope : Nat)
    (filter : String) : List ColumnResult → TeaMsg
  | [] => TeaMsg.dataLoaded cols
  | r :: rs =>
    match r.err with
    | some FetchErr.deadlineExceeded => TeaMsg.dataLoaded cols
    | some FetchErr.canceled => TeaMsg.dataLoaded cols
    | some (FetchErr.other s) => TeaMsg.errMsg (FetchErr.other s)
    | Option.none =>
      loadColumnsConcurrently (mergePrimaryResult scope filter cols r) scope filter rs

/-- The collect loop of `loadScopeConcurrently`: failed results are skipped
("ignore errors for background loading"), successful ones are inserted into
the merged map (modelled as an association list over distinct indices). -/
def loadScopeConcurrently (scope : Nat) (acc : List (Nat × List JiraIssue)) :
    List ColumnResult → TeaMsg
  | [] => TeaMsg.lazyBatchLoaded scope acc
  | r :: rs =>
    match r.err with
    | some _ => loadScopeConcurrently scope acc rs
    | Option.none => loadScopeConcurrently scope (acc ++ [(r.index, r.issues)]) rs

/-! ## Proof-support definitions -/

/-- The subtask children of `p` inside `l` (the `appendGroup` filter with the
allow-set check dropped; they coincide when the allow-set contains every key
of `l`). -/
def issueChildren (l : List JiraIssue) (p : JiraIssue) : List JiraIssue :=
  l.filter (fun ch => ch.subtask && ch.parentKey == p.key)

/-- An issue that the output passes of `reorderAndGroupIssues` treat as nested
under a parent: a subtask with a non-empty parent key that occurs in `l`. -/
def isNestedChild (l : List JiraIssue) (it : JiraIssue) : Bool :=
  it.subtask && it.parentKey != "" && (l.map (fun x => x.key)).contains it.parentKey

/-- Expansion of a list of group heads: every head followed by its subtask
children from `l`. -/
def expandGroups (l : List JiraIssue) : List JiraIssue → List JiraIssue
  | [] => []
  | h :: hs => (h :: issueChildren l h) ++ expandGroups l hs

/-- The survivors of the fuzzy filter: issues whose best score over normalised
key and summary is positive. -/
def fuzzySurvivors (nf : String) (all : List JiraIssue) : List JiraIssue :=
  all.filter (fun it => decide (0 < bestFuzzy nf it))

/-- Claim C2 as stated: in the output of `reorderAndGroupIssues`, every
subtask whose parent key occurs in the input appears at the position directly
after an occurrence of its parent. -/
abbrev subtaskAdjacencyClaim (title : String) (l : List JiraIssue) : Prop :=
  ∀ s ∈ l, s.subtask = true → s.parentKey ∈ l.map (fun it => it.key) →
    ∃ i ∈ List.range (reorderAndGroupIssues title l).length,
      ((reorderAndGroupIssues title l).getD i defaultIssue).key = s.parentKey ∧
      i + 1 < (reorderAndGroupIssues title l).length ∧
      (reorderAndGroupIssues title l).getD (i + 1) defaultIssue = s

/-- Per-column invariant of claim C5, relative to a window height `wh`. -/
def colInv (wh : Int) (c : KanbanColumnView) : Prop :=
  (c.issues ≠ [] → 0 ≤ c.cursor ∧ c.cursor < c.issues.length) ∧
  c.offset ≤ c.cursor ∧ c.cursor < c.offset + wh ∧
  c.offset ≤ max 0 ((c.issues.length : Int) - wh)

/-- Board invariant of claim C5: three columns, a selected column in range,
and every column within its window. -/
def boardInv (m : BoardModel) : Prop :=
  m.columns.length = 3 ∧ m.selectedCol < m.columns.length ∧
  ∀ c ∈ m.columns, colInv (itemsWindowCount m) c

/-- Well-formed events: a data refresh delivers the board's three columns
(`loadColumnsConcurrently` always returns the same column slice it was
given). -/
def eventWF : BoardEvent → Prop
  | BoardEvent.dataLoaded cols => cols.length = 3
  | _ => True

/-- Column agreement up to the cache entry of one scope: all displayed and
positional fields equal, and the scope cache equal at every other scope
(claim C7's frame relation). -/
def colAgree (scope : Nat) (c c0 : KanbanColumnView) : Prop :=
  c.title = c0.title ∧ c.statusCategory = c0.statusCategory ∧
  c.issues = c0.issues ∧ c.allIssues = c0.allIssues ∧
  c.cursor = c0.cursor ∧ c.offset = c0.offset ∧
  ∀ s2, s2 ≠ scope → c.allByScope s2 = c0.allByScope s2

/-! ## Concrete instances used by counterexamples and witnesses -/

/-- Ticket A of the C1 scenario: active, no parent. -/
def issueA : JiraIssue :=
  { key := "A", summary := "", statusName := "To Do", subtask := false, parentKey := "" }

/-- Ticket B of the C1 scenario: backlog status, no parent. -/
def issueB : JiraIssue :=
  { key := "B", summary := "", statusName := "Backlog", subtask := false, parentKey := "" }

/-- Ticket C of the C1 scenario: active subtask of B. -/
def issueC : JiraIssue :=
  { key := "C", summary := "", statusName := "To Do", subtask := true, parentKey := "B" }

/-- Active parent for the C2 counterexample. -/
def issueP : JiraIssue :=
  { key := "P", summary := "", statusName := "To Do", subtask := false, parentKey := "" }

/-- Second active top-level ticket for the C2 counterexample. -/
def issueQ : JiraIssue :=
  { key := "Q", summary := "", statusName := "To Do", subtask := false, parentKey := "" }

/-- Backlog subtask of P for the C2 counterexample. -/
def issueS : JiraIssue :=
  { key := "S", summary := "", statusName := "Backlog", subtask := true, parentKey := "P" }

/-- C3 counterexample ticket 1: summary "axb", fuzzy score 73 for "ab". -/
def issueT1 : JiraIssue :=
  { key := "T-1", summary := "axb", statusName := "In Progress", subtask := false, parentKey := "" }

/-- C3 counterexample ticket 2: summary "axxb", fuzzy score 73 for "ab". -/
def issueT2 : JiraIssue :=
  { key := "T-2", summary := "axxb", statusName := "In Progress", subtask := false, parentKey := "" }

/-- C3 counterexample ticket 3: summary "ab", fuzzy score 100 for "ab". -/
def issueT3 : JiraIssue :=
  { key := "T-3", summary := "ab", statusName := "In Progress", subtask := false, parentKey := "" }

/-- Board used by the C4 counterexample: current scope 0; column 0 already
caches scope 1, columns 1 and 2 do not. -/
def cex4Model : BoardModel :=
  { columns := [
      { defaultCol with
        title := "To Do", statusCategory := "To Do",
        allByScope := fun s => if s = 1 then some [] else Option.none },
      { defaultCol with
        title := "In Progress", statusCategory := "In Progress" },
      { defaultCol with
        title := "Done", statusCategory := "Done" }],
    selectedCol := 0, loading := false, errS := Option.none, curScope := 0,
    width := 80, height := 24, filtering := false, filter := "" }

/-- Board used by the C8 witness: every column caches scope 1. -/
def w8Model : BoardModel :=
  { columns := [
      { defaultCol with
        title := "To Do", statusCategory := "To Do",
        allByScope := fun s => if s = 1 then some [issueA] else Option.none },
      { defaultCol with
        title := "In Progress", statusCategory := "In Progress",
        allByScope := fun s => if s = 1 then some [] else Option.none },
      { defaultCol with
        title := "Done", statusCategory := "Done",
        allByScope := fun s => if s = 1 then some [issueB] else Option.none }],
    selectedCol := 0, loading := false, errS := Option.none, curScope := 0,
    width := 80, height := 24, filtering := false, filter := "" }

/-- Successful fetch result for column 0 (C9 witness). -/
def resOk0 : ColumnResult := { index := 0, issues := [], err := Option.none }

/-- Permanently failing fetch result for column 1 (C9 witness). -/
def resBad1 : ColumnResult :=
  { index := 1, issues := [], err := some (FetchErr.other "boom") }

/-- Successful fetch result for column 2 (C9 witness). -/
def resOk2 : ColumnResult := { index := 2, issues := [], err := Option.none }

/-- Board used by the C7 witness: a single column, current scope 0. -/
def w7Model : BoardModel :=
  { columns := [defaultCol],
    selectedCol := 0, loading := false, errS := Option.none, curScope := 0,
    width := 80, height := 24, filtering := false, filter := "" }

/-! ## Claim theorems and supporting lemmas -/

/-- C10: for each of the four scope constants, the configuration string
written at board exit by `scopeToConfigString` is mapped back to the identical
scope by `scopeFromString` at the next board start. -/
theorem scope_roundtrip_all :
    scopeFromString (scopeToConfigString scopeMineOrReported) = scopeMineOrReported ∧
    scopeFromString (scopeToConfigString scopeMine) = scopeMine ∧
    scopeFromString (scopeToConfigString scopeReported) = scopeReported ∧
    scopeFromString (scopeToConfigString scopeUnassigned) = scopeUnassigned := by
  decide

/-- C1, counterexample: on the scenario list [A(active), B(backlog),
C(active subtask of B)] the "To Do" grouping step does *not* return
[B, C, A] as the claim states. -/
theorem reorder_promotion_cex :
    reorderAndGroupIssues "To Do" [issueA, issueB, issueC] ≠
      [issueB, issueC, issueA] := by
  decide

/-- C1, amended: the output is [A, B, C] — B is promoted into the active
group (its backlog status notwithstanding) with its active subtask C directly
under it, but A, which precedes B in the input, keeps its earlier position;
the promotion does not move B ahead of A. -/
theorem reorder_promotion_order :
    reorderAndGroupIssues "To Do" [issueA, issueB, issueC] =
      [issueA, issueB, issueC] ∧
    isBacklog issueB = true ∧ isBacklog issueA = false ∧
    issueC.subtask = true ∧ issueC.parentKey = issueB.key := by
  decide

/-- C2, counterexample: in the "To Do" column with [P(active), Q(active),
S(backlog subtask of P)], the subtask S — whose parent key P is present in the
input — does not appear immediately after P: the output is [P, Q, S]. -/
theorem subtask_adjacency_cex :
    ¬ subtaskAdjacencyClaim "To Do" [issueP, issueQ, issueS] := by
  decide

/-- C3, counterexample: for filter "ab", tickets T-1 and T-2 tie at best
fuzzy score 73 and T-1 precedes T-2 in the input, yet the output of
`filterAndGroupColumn` orders T-2 before T-1 — the swap-based score sort is
not stable, so ties are not broken by original input order. -/
theorem filter_tie_unstable_cex :
    bestFuzzy (NormalizeSearchText "ab") issueT1 =
      bestFuzzy (NormalizeSearchText "ab") issueT2 ∧
    filterAndGroupColumn "In Progress" [issueT1, issueT2, issueT3] "ab" =
      [issueT3, issueT2, issueT1] ∧
    issueT1 ≠ issueT2 := by
  decide

/-- C4, counterexample: cycling scope on a board whose column 0 already has a
cache entry for the new scope (and columns 1, 2 do not) dispatches a fetch
command covering all three columns — the cached column 0 is fetched again,
contradicting "scoped to just the missing columns". -/
theorem scope_cycle_fetch_all_cex :
    (updateScopeCycle cex4Model).2 = BoardCmd.fetchScope 1 [0, 1, 2] ∧
    ((cex4Model.columns.getD 0 defaultCol).allByScope 1).isSome = true := by
  decide

set_option maxHeartbeats 1000000 in
/-- C6: `ensureCursorVisible` coincides, for every board model and column,
with the algorithm as specified — clamp cursor into `[0, len-1]`, pull the
offset up/down to keep the cursor inside the window, clamp the offset into
`[0, max(0, len - windowHeight)]`, and reset both to `0` on an empty list. -/
theorem ensureCursorVisible_eq_spec (m : BoardModel) (c : KanbanColumnView) :
    ensureCursorVisible m c = ensureCursorVisibleSpec m c := by
  rcases c with ⟨t, sc, iss, ai, abs, cur, off⟩
  unfold ensureCursorVisible ensureCursorVisibleSpec clampWindow
  dsimp only
  by_cases h0 : iss.length = 0
  · rw [if_pos h0, if_pos h0]
  · rw [if_neg h0, if_neg h0]
    have h1 : 1 ≤ (iss.length : Int) := by
      have := Nat.pos_of_ne_zero h0
      exact_mod_cast this
    simp only [KanbanColumnView.mk.injEq, true_and]
    constructor
    · split_ifs <;> omega
    · split_ifs <;> omega

theorem expandGroups_append (l a b : List JiraIssue) :
    expandGroups l (a ++ b) = expandGroups l a ++ expandGroups l b := by
  induction a with
  | nil => simp [expandGroups]
  | cons h t ih => simp [expandGroups, ih]

theorem key_inj (l : List JiraIssue) (hnodup : (l.map (fun it => it.key)).Nodup)
    {a b : JiraIssue} (ha : a ∈ l) (hb : b ∈ l) (h : a.key = b.key) : a = b :=
  List.inj_on_of_nodup_map hnodup ha hb h

theorem pass_fold (l : List JiraIssue)
    (hnodup : (l.map (fun it => it.key)).Nodup)
    (hkeys : ∀ it ∈ l, it.key ≠ "")
    (todo : List JiraIssue) :
    ∀ (seen : List String) (out : List JiraIssue),
      todo.Sublist l →
      (∀ it ∈ todo, isNestedChild l it = false → it.key ∉ seen) →
      (todo.foldl (passStep l (l.map (fun it => it.key))) (seen, out)).2 =
        out ++ expandGroups l (todo.filter (fun it => !(isNestedChild l it))) := by
  induction todo with
  | nil => intro seen out _ _; simp [expandGroups]
  | cons h t ih =>
    intro seen out hsubl hseen
    have hhl : h ∈ l := hsubl.subset (List.mem_cons_self h t)
    have htl : t.Sublist l := List.sublist_of_cons_sublist hsubl
    have hkmem : h.key ∈ l.map (fun it => it.key) := List.mem_map_of_mem _ hhl
    have hck : (l.map (fun it => it.key)).contains h.key = true := by simpa using hkmem
    rw [List.foldl_cons]
    by_cases hnest : isNestedChild l h = true
    · -- nested child: the step leaves the state unchanged
      have hstep : passStep l (l.map (fun it => it.key)) (seen, out) h = (seen, out) := by
        unfold passStep
        rw [hck]
        simp only [Bool.not_true, Bool.false_eq_true, if_false]
        by_cases hsc : seen.contains h.key = true
        · rw [if_pos hsc]
        · rw [if_neg hsc]
          have hc2 : (h.subtask && h.parentKey != "" &&
              (l.map (fun x => x.key)).contains h.parentKey) = true := hnest
          simp only [hc2, if_true]
      rw [hstep, ih seen out htl (fun it hit => hseen it (List.mem_cons_of_mem h hit))]
      have hfc : (List.filter (fun it => !(isNestedChild l it)) (h :: t)) =
          List.filter (fun it => !(isNestedChild l it)) t := by
        rw [List.filter_cons]
        simp [hnest]
      rw [hfc]
    · -- group head: emit the group and mark h and its children seen
      have hnf : isNestedChild l h = false := by
        cases hx : isNestedChild l h
        · rfl
        · exact absurd hx hnest
      have hns : h.key ∉ seen := hseen h (List.mem_cons_self h t) hnf
      have hsc : seen.contains h.key = false := by
        cases hx : seen.contains h.key
        · rfl
        · exact absurd (by simpa using hx) hns
      have hchf : (l.filter (fun ch =>
          ch.subtask && ch.parentKey == h.key && (l.map (fun it => it.key)).contains ch.key)) =
          issueChildren l h := by
        unfold issueChildren
        apply List.filter_congr
        intro ch hch
        have hc3 : (l.map (fun it => it.key)).contains ch.key = true := by
          simpa using List.mem_map_of_mem _ hch
        simp only [hc3, Bool.and_true]
      have hag : appendGroup l (l.map (fun it => it.key)) h = h :: issueChildren l h := by
        unfold appendGroup
        rw [hchf]
      have hstep : passStep l (l.map (fun it => it.key)) (seen, out) h =
          (h.key :: (issueChildren l h).map (fun ch => ch.key) ++ seen,
           out ++ (h :: issueChildren l h)) := by
        unfold passStep
        rw [hck]
        simp only [Bool.not_true, Bool.false_eq_true, if_false]
        rw [if_neg (by rw [hsc]; exact Bool.false_ne_true)]
        have hnf2 : (h.subtask && h.parentKey != "" &&
            (l.map (fun x => x.key)).contains h.parentKey) = false := hnf
        rw [if_neg (by rw [hnf2]; exact Bool.false_ne_true)]
        rw [hchf, hag]
      rw [hstep]
      have hkeysT : h.key ∉ t.map (fun it => it.key) := by
        have h2 : ((h :: t).map (fun it => it.key)).Nodup :=
          hnodup.sublist (hsubl.map (fun it => it.key))
        rw [List.map_cons, List.nodup_cons] at h2
        exact h2.1
      have hseen2 : ∀ it ∈ t, isNestedChild l it = false →
          it.key ∉ (h.key :: (issueChildren l h).map (fun ch => ch.key) ++ seen) := by
        intro it hit hitf hmemTop
        have hitl : it ∈ l := htl.subset hit
        rcases List.mem_cons.mp hmemTop with hkeq | hmem2
        · exact hkeysT (hkeq ▸ List.mem_map_of_mem _ hit)
        · rcases List.mem_append.mp hmem2 with hmemX | hmemS
          · rcases List.mem_map.mp hmemX with ⟨ch, hchmem, hcheq⟩
            unfold issueChildren at hchmem
            rcases List.mem_filter.mp hchmem with ⟨hchl, hchprop⟩
            have hcheq2 : it = ch := key_inj l hnodup hitl hchl hcheq.symm
            rcases (by simpa using hchprop : ch.subtask = true ∧ ch.parentKey = h.key)
              with ⟨hsub, hpk2⟩
            have htrue : isNestedChild l it = true := by
              subst hcheq2
              simp only [isNestedChild, Bool.and_eq_true, bne_iff_ne]
              refine ⟨⟨hsub, ?_⟩, ?_⟩
              · rw [hpk2]; exact hkeys h hhl
              · rw [hpk2]; simpa using hkmem
            rw [htrue] at hitf
            exact Bool.noConfusion hitf
          · exact hseen it (List.mem_cons_of_mem h hit) hitf hmemS
      rw [ih _ _ htl hseen2]
      have hfc : (List.filter (fun it => !(isNestedChild l it)) (h :: t)) =
          h :: List.filter (fun it => !(isNestedChild l it)) t := by
        rw [List.filter_cons]
        simp [hnf]
      rw [hfc]
      show out ++ (h :: issueChildren l h) ++ _ = _
      rw [expandGroups]
      simp [List.append_assoc]

theorem reorder_closed_form (title : String) (l : List JiraIssue)
    (htitle : (title == "To Do") = false)
    (hnodup : (l.map (fun it => it.key)).Nodup)
    (hkeys : ∀ it ∈ l, it.key ≠ "") :
    reorderAndGroupIssues title l =
      expandGroups l (l.filter (fun it => !(isNestedChild l it))) := by
  by_cases hemp : l.isEmpty = true
  · have : l = [] := List.isEmpty_iff.mp hemp
    subst this
    simp [reorderAndGroupIssues, expandGroups]
  · unfold reorderAndGroupIssues
    rw [if_neg hemp]
    simp only [htitle, Bool.false_eq_true, if_false]
    simpa using pass_fold l hnodup hkeys l [] [] (List.Sublist.refl l)
      (fun it _ _ => List.not_mem_nil it.key)

theorem issueChildren_eq_nil (l : List JiraIssue)
    (hnosub : ∀ it ∈ l, it.subtask = false) (p : JiraIssue) :
    issueChildren l p = [] := by
  unfold issueChildren
  rw [List.filter_eq_nil_iff]
  intro ch hch
  simp [hnosub ch hch]

theorem expandGroups_self (l : List JiraIssue) (hs : List JiraIssue)
    (hnoch : ∀ h ∈ hs, issueChildren l h = []) : expandGroups l hs = hs := by
  induction hs with
  | nil => rfl
  | cons h t ih =>
    rw [expandGroups, hnoch h (List.mem_cons_self h t),
      ih (fun x hx => hnoch x (List.mem_cons_of_mem _ hx))]
    rfl

theorem reorder_id_of_nosub (title : String) (l : List JiraIssue)
    (htitle : (title == "To Do") = false)
    (hnodup : (l.map (fun it => it.key)).Nodup)
    (hkeys : ∀ it ∈ l, it.key ≠ "")
    (hnosub : ∀ it ∈ l, it.subtask = false) :
    reorderAndGroupIssues title l = l := by
  rw [reorder_closed_form title l htitle hnodup hkeys]
  have hfilter : l.filter (fun it => !(isNestedChild l it)) = l := by
    apply List.filter_eq_self.mpr
    intro it hit
    simp [isNestedChild, hnosub it hit]
  rw [hfilter]
  exact expandGroups_self l l (fun h _ => issueChildren_eq_nil l hnosub h)

/-- C2, amended: for a column other than "To Do", an input with pairwise
distinct non-empty keys, and a subtask `s` whose parent `p` is present and is
not itself a subtask, `s` appears in the output after `p` with only other
subtasks of `p` between them (the contiguous nested block under `p`).  The
"To Do" column is excluded because its active/backlog partition can separate
a subtask from its parent (see the counterexample). -/
theorem reorder_subtask_block (title : String) (l : List JiraIssue)
    (p s : JiraIssue)
    (htitle : (title == "To Do") = false)
    (hnodup : (l.map (fun it => it.key)).Nodup)
    (hkeys : ∀ it ∈ l, it.key ≠ "")
    (hp : p ∈ l) (hs : s ∈ l)
    (hsub : s.subtask = true) (hpar : s.parentKey = p.key)
    (hpns : p.subtask = false) :
    ∃ pre mid post,
      reorderAndGroupIssues title l = pre ++ p :: (mid ++ s :: post) ∧
      ∀ c ∈ mid, c.subtask = true ∧ c.parentKey = p.key := by
  rw [reorder_closed_form title l htitle hnodup hkeys]
  have hphead : p ∈ l.filter (fun it => !(isNestedChild l it)) := by
    rw [List.mem_filter]
    exact ⟨hp, by simp [isNestedChild, hpns]⟩
  rcases List.append_of_mem hphead with ⟨H1, H2, hsplit⟩
  have hsc : s ∈ issueChildren l p := by
    unfold issueChildren
    rw [List.mem_filter]
    exact ⟨hs, by simp [hsub, hpar]⟩
  rcases List.append_of_mem hsc with ⟨C1, C2, hcsplit⟩
  refine ⟨expandGroups l H1, C1, C2 ++ expandGroups l H2, ?_, ?_⟩
  · rw [hsplit, expandGroups_append, expandGroups, hcsplit]
    simp [List.append_assoc]
  · intro c hc
    have hcmem : c ∈ issueChildren l p := by
      rw [hcsplit]
      exact List.mem_append_left _ hc
    unfold issueChildren at hcmem
    rcases List.mem_filter.mp hcmem with ⟨_, hprop⟩
    simpa using hprop

/-- Witness for `reorder_subtask_block` at a concrete two-ticket column. -/
theorem reorder_subtask_block_witness :
    ∃ pre mid post,
      reorderAndGroupIssues "In Progress" [issueP, issueS] =
        pre ++ issueP :: (mid ++ issueS :: post) ∧
      ∀ c ∈ mid, c.subtask = true ∧ c.parentKey = issueP.key :=
  reorder_subtask_block "In Progress" [issueP, issueS] issueP issueS
    (by decide) (by decide) (by decide) (by decide) (by decide)
    (by decide) (by decide) (by decide)

theorem bubblePass_length (xs : List (JiraIssue × Int)) :
    ∀ cur, (bubblePass cur xs).2.length = xs.length := by
  induction xs with
  | nil => intro cur; rfl
  | cons x t ih =>
    intro cur
    unfold bubblePass
    by_cases hx : x.2 > cur.2
    · simp [hx, ih]
    · simp [hx, ih]

theorem selSortFuel_cons (n : Nat) (x : JiraIssue × Int) (xs : List (JiraIssue × Int)) :
    selSortFuel (n + 1) (x :: xs) =
      (bubblePass x xs).1 :: selSortFuel n (bubblePass x xs).2 := rfl

theorem selSort_cons (x : JiraIssue × Int) (xs : List (JiraIssue × Int)) :
    selSort (x :: xs) = (bubblePass x xs).1 :: selSort (bubblePass x xs).2 := by
  unfold selSort
  rw [List.length_cons, selSortFuel_cons, bubblePass_length]

theorem bubblePass_perm (xs : List (JiraIssue × Int)) :
    ∀ cur, ((bubblePass cur xs).1 :: (bubblePass cur xs).2).Perm (cur :: xs) := by
  induction xs with
  | nil => intro cur; simp [bubblePass]
  | cons x t ih =>
    intro cur
    unfold bubblePass
    by_cases hx : x.2 > cur.2
    · simp only [hx, if_true]
      exact (List.Perm.swap cur (bubblePass x t).1 (bubblePass x t).2).trans ((ih x).cons cur)
    · simp only [hx, if_false]
      exact ((List.Perm.swap x (bubblePass cur t).1 (bubblePass cur t).2).trans
        ((ih cur).cons x)).trans (List.Perm.swap cur x t)

theorem bubblePass_fst_max (xs : List (JiraIssue × Int)) :
    ∀ cur, ∀ z ∈ cur :: xs, z.2 ≤ (bubblePass cur xs).1.2 := by
  induction xs with
  | nil =>
    intro cur z hz
    rcases List.mem_singleton.mp hz with rfl
    simp [bubblePass]
  | cons x t ih =>
    intro cur z hz
    unfold bubblePass
    by_cases hx : x.2 > cur.2
    · simp only [hx, if_true]
      rcases List.mem_cons.mp hz with rfl | hz2
      · exact le_trans (le_of_lt hx) (ih x x (List.mem_cons_self x t))
      · exact ih x z hz2
    · simp only [hx, if_false]
      rcases List.mem_cons.mp hz with rfl | hz2
      · exact ih z z (List.mem_cons_self z t)
      · rcases List.mem_cons.mp hz2 with rfl | hz3
        · exact le_trans (le_of_not_lt hx) (ih cur cur (List.mem_cons_self cur t))
        · exact ih cur z (List.mem_cons_of_mem cur hz3)

theorem selSortFuel_perm : ∀ (n : Nat) (l : List (JiraIssue × Int)),
    l.length ≤ n → (selSortFuel n l).Perm l := by
  intro n
  induction n with
  | zero =>
    intro l h
    have : l = [] := List.eq_nil_of_length_eq_zero (Nat.le_zero.mp h)
    subst this
    rfl
  | succ n ih =>
    intro l h
    cases l with
    | nil => rfl
    | cons x Xs =>
      rw [selSortFuel_cons]
      have hlen : (bubblePass x Xs).2.length ≤ n := by
        rw [bubblePass_length]
        exact Nat.le_of_succ_le_succ h
      exact ((ih _ hlen).cons _).trans (bubblePass_perm Xs x)

theorem selSort_perm (l : List (JiraIssue × Int)) : (selSort l).Perm l :=
  selSortFuel_perm l.length l (Nat.le_refl _)

theorem selSortFuel_sorted : ∀ (n : Nat) (l : List (JiraIssue × Int)),
    l.length ≤ n →
    List.Pairwise (fun a b => b.2 ≤ a.2) (selSortFuel n l) := by
  intro n
  induction n with
  | zero =>
    intro l h
    have : l = [] := List.eq_nil_of_length_eq_zero (Nat.le_zero.mp h)
    subst this
    exact List.Pairwise.nil
  | succ n ih =>
    intro l h
    cases l with
    | nil => exact List.Pairwise.nil
    | cons x Xs =>
      rw [selSortFuel_cons]
      have hlen : (bubblePass x Xs).2.length ≤ n := by
        rw [bubblePass_length]
        exact Nat.le_of_succ_le_succ h
      refine List.Pairwise.cons ?_ (ih _ hlen)
      intro z hz
      have hz2 : z ∈ (bubblePass x Xs).2 := (selSortFuel_perm n _ hlen).subset hz
      have hz3 : z ∈ (bubblePass x Xs).1 :: (bubblePass x Xs).2 :=
        List.mem_cons_of_mem _ hz2
      have hz4 : z ∈ x :: Xs := (bubblePass_perm Xs x).subset hz3
      exact bubblePass_fst_max Xs x z hz4

theorem selSort_sorted (l : List (JiraIssue × Int)) :
    List.Pairwise (fun a b => b.2 ≤ a.2) (selSort l) :=
  selSortFuel_sorted l.length l (Nat.le_refl _)

theorem scored_map_fst (nf : String) (all : List JiraIssue) :
    ((all.filterMap (fun it =>
        if bestFuzzy nf it > 0 then some (it, bestFuzzy nf it) else none)).map
      (fun s => s.1)) = fuzzySurvivors nf all := by
  unfold fuzzySurvivors
  induction all with
  | nil => rfl
  | cons x t ih =>
    rw [List.filterMap_cons, List.filter_cons]
    by_cases h : bestFuzzy nf x > 0
    · simp only [if_pos h, List.map_cons, ih]
      simp [h]
    · simp only [if_neg h, ih]
      simp [h]

theorem scored_snd (nf : String) (all : List JiraIssue) :
    ∀ x ∈ all.filterMap (fun it =>
        if bestFuzzy nf it > 0 then some (it, bestFuzzy nf it) else none),
      x.2 = bestFuzzy nf x.1 := by
  intro x hx
  rcases List.mem_filterMap.mp hx with ⟨a, _, hfa⟩
  by_cases h : bestFuzzy nf a > 0
  · rw [if_pos h] at hfa
    cases Option.some.inj hfa
    rfl
  · rw [if_neg h] at hfa
    exact Option.noConfusion hfa

/-- C3, amended: for a non-empty filter, a column other than "To Do" and a
raw list with distinct non-empty keys and no subtasks, `filterAndGroupColumn`
keeps exactly the tickets whose best fuzzy score over normalised key and
summary is positive (the output is a permutation of the survivor list) and
orders them by descending score; ties between equal scores are resolved by
the unstable swap-based sort, not by original input order (see the
counterexample). -/
theorem filter_sort_characterization (title : String) (all : List JiraIssue)
    (filter : String)
    (htitle : (title == "To Do") = false)
    (hfil : (filter == "") = false)
    (hnodup : (all.map (fun it => it.key)).Nodup)
    (hkeys : ∀ it ∈ all, it.key ≠ "")
    (hnosub : ∀ it ∈ all, it.subtask = false) :
    (filterAndGroupColumn title all filter).Perm
      (fuzzySurvivors (NormalizeSearchText filter) all) ∧
    List.Pairwise (fun a b => bestFuzzy (NormalizeSearchText filter) b ≤
      bestFuzzy (NormalizeSearchText filter) a)
      (filterAndGroupColumn title all filter) := by
  have hfg : filterAndGroupColumn title all filter =
      reorderAndGroupIssues title
        ((selSort (all.filterMap (fun it =>
          if bestFuzzy (NormalizeSearchText filter) it > 0 then
            some (it, bestFuzzy (NormalizeSearchText filter) it) else none))).map
          (fun s => s.1)) := by
    unfold filterAndGroupColumn
    rw [if_neg (by rw [hfil]; exact Bool.false_ne_true)]
  set nf := NormalizeSearchText filter with hnf
  set scored := all.filterMap (fun it =>
    if bestFuzzy nf it > 0 then some (it, bestFuzzy nf it) else none) with hscored
  set mapped := (selSort scored).map (fun s => s.1) with hmapped
  -- the permutation between the displayed list and the survivors
  have hpermS : (selSort scored).Perm scored := selSort_perm scored
  have hpermM : mapped.Perm (fuzzySurvivors nf all) := by
    rw [hmapped, ← scored_map_fst nf all]
    exact hpermS.map (fun s => s.1)
  -- survivors sit inside `all`
  have hsurv_sub : ∀ it ∈ fuzzySurvivors nf all, it ∈ all := by
    intro it hit
    exact (List.mem_filter.mp hit).1
  have hmem : ∀ it ∈ mapped, it ∈ all := by
    intro it hit
    exact hsurv_sub it (hpermM.subset hit)
  -- the grouping step is the identity on `mapped`
  have hgroup : reorderAndGroupIssues title mapped = mapped := by
    apply reorder_id_of_nosub title mapped htitle
    · have hsubl : (fuzzySurvivors nf all).Sublist all := List.filter_sublist all
      have hnodupS : ((fuzzySurvivors nf all).map (fun it => it.key)).Nodup :=
        hnodup.sublist (hsubl.map (fun it => it.key))
      exact ((hpermM.map (fun it => it.key)).nodup_iff).mpr hnodupS
    · exact fun it hit => hkeys it (hmem it hit)
    · exact fun it hit => hnosub it (hmem it hit)
  rw [hfg, hgroup]
  refine ⟨hpermM, ?_⟩
  -- descending scores
  have hsorted : List.Pairwise (fun a b => b.2 ≤ a.2) (selSort scored) :=
    selSort_sorted scored
  have hsnd : ∀ x ∈ selSort scored, x.2 = bestFuzzy nf x.1 := by
    intro x hx
    exact scored_snd nf all x (hpermS.subset hx)
  rw [hmapped, List.pairwise_map]
  exact List.Pairwise.imp_of_mem
    (fun ha hb hr => by
      rw [← hsnd _ ha, ← hsnd _ hb]
      exact hr) hsorted

/-- Witness for `filter_sort_characterization` at a concrete input. -/
theorem filter_sort_characterization_witness :
    (filterAndGroupColumn "In Progress" [issueT1] "ab").Perm
      (fuzzySurvivors (NormalizeSearchText "ab") [issueT1]) ∧
    List.Pairwise (fun a b => bestFuzzy (NormalizeSearchText "ab") b ≤
      bestFuzzy (NormalizeSearchText "ab") a)
      (filterAndGroupColumn "In Progress" [issueT1] "ab") :=
  filter_sort_characterization "In Progress" [issueT1] "ab"
    (by decide) (by decide) (by decide) (by decide) (by decide)

theorem getD_map_lt {α β : Type} (f : α → β) (l : List α) (i : Nat)
    (h : i < l.length) (d : β) (d2 : α) :
    (l.map f).getD i d = f (l.getD i d2) := by
  rw [List.getD_eq_getElem?_getD, List.getD_eq_getElem?_getD, List.getElem?_map,
    List.getElem?_eq_getElem h]
  simp

theorem ensure_issues (m : BoardModel) (c : KanbanColumnView) :
    (ensureCursorVisible m c).issues = c.issues := by
  unfold ensureCursorVisible
  split_ifs <;> rfl

theorem cycleColumnStep_cached (m : BoardModel) (c : KanbanColumnView)
    (data : List JiraIssue) (hdata : c.allByScope m.curScope = some data) :
    cycleColumnStep m c =
      (ensureCursorVisible m
        { c with allIssues := data,
                 issues := filterAndGroupColumn c.title data m.filter }, false) := by
  unfold cycleColumnStep
  rw [hdata]

theorem cycleColumnStep_missing (m : BoardModel) (c : KanbanColumnView)
    (hdata : c.allByScope m.curScope = Option.none) :
    cycleColumnStep m c = (ensureCursorVisible m c, true) := by
  unfold cycleColumnStep
  rw [hdata]

/-- C8: cycling to a scope for which every column has a cache entry returns
no fetch command, and every column's displayed list is the cached list for the
new scope run through the Filter/Group Engine with the current filter text. -/
theorem scope_cycle_cached (m : BoardModel)
    (hall : ∀ i, i < m.columns.length →
      ((m.columns.getD i defaultCol).allByScope ((m.curScope + 1) % 4)).isSome = true) :
    (updateScopeCycle m).2 = BoardCmd.none ∧
    (updateScopeCycle m).1.columns.length = m.columns.length ∧
    ∀ i, i < m.columns.length →
      ((updateScopeCycle m).1.columns.getD i defaultCol).issues =
        filterAndGroupColumn (m.columns.getD i defaultCol).title
          (((m.columns.getD i defaultCol).allByScope ((m.curScope + 1) % 4)).getD [])
          m.filter := by
  unfold updateScopeCycle
  dsimp only
  set m1 : BoardModel := { m with curScope := (m.curScope + 1) % 4 } with hm1
  have hcols : m1.columns = m.columns := rfl
  have hscope : m1.curScope = (m.curScope + 1) % 4 := rfl
  set results := m1.columns.map (cycleColumnStep m1) with hres
  have hreslen : results.length = m.columns.length := by
    rw [hres, List.length_map, hcols]
  have hresD : ∀ i, i < m.columns.length →
      results.getD i (defaultCol, false) =
        cycleColumnStep m1 (m.columns.getD i defaultCol) := by
    intro i hi
    rw [hres, hcols]
    exact getD_map_lt _ _ i hi _ _
  have hdataAt : ∀ i, i < m.columns.length →
      ∃ data, (m.columns.getD i defaultCol).allByScope m1.curScope = some data ∧
        ((m.columns.getD i defaultCol).allByScope ((m.curScope + 1) % 4)).getD [] = data := by
    intro i hi
    rcases Option.isSome_iff_exists.mp (hall i hi) with ⟨data, hdata⟩
    exact ⟨data, by rw [hscope, hdata], by rw [hdata]; rfl⟩
  have hmiss : (List.range results.length).filter
      (fun i => (results.getD i (defaultCol, false)).2) = [] := by
    rw [List.filter_eq_nil_iff]
    intro i hi
    have hi2 : i < m.columns.length := by
      rw [← hreslen]; exact List.mem_range.mp hi
    rcases hdataAt i hi2 with ⟨data, hdata, _⟩
    rw [hresD i hi2, cycleColumnStep_cached m1 _ data hdata]
    simp
  rw [hmiss]
  simp only [List.isEmpty_nil, if_true]
  refine ⟨by trivial, by simpa using hreslen, ?_⟩
  intro i hi
  rcases hdataAt i hi with ⟨data, hdata, hgetD⟩
  have : (results.map (fun r => r.1)).getD i defaultCol =
      (cycleColumnStep m1 (m.columns.getD i defaultCol)).1 := by
    rw [getD_map_lt _ _ i (by rw [hreslen]; exact hi) _ (defaultCol, false)]
    rw [hresD i hi]
  simp only [this, cycleColumnStep_cached m1 _ data hdata, ensure_issues]
  rw [hgetD]

theorem getD_range_lt (n i : Nat) (h : i < n) (d : Nat) :
    (List.range n).getD i d = i := by
  rw [List.getD_eq_getElem?_getD, List.getElem?_range h]
  rfl

/-- C4, amended: when at least one column has no cache entry for the new
scope, the displayed lists of the missing columns are blanked (the View shows
the loading placeholder for them) and a background fetch command for the new
scope is dispatched — but the dispatched closure loops over the full column
snapshot, so the fetch covers *all* column indices, re-fetching even columns
whose cache already holds the new scope. -/
theorem scope_cycle_missing_fetch (m : BoardModel)
    (hmiss : ∃ j, j < m.columns.length ∧
      ((m.columns.getD j defaultCol).allByScope ((m.curScope + 1) % 4)).isSome = false) :
    (updateScopeCycle m).2 =
      BoardCmd.fetchScope ((m.curScope + 1) % 4) (List.range m.columns.length) ∧
    (updateScopeCycle m).1.columns.length = m.columns.length ∧
    ∀ i, i < m.columns.length →
      ((m.columns.getD i defaultCol).allByScope ((m.curScope + 1) % 4)).isSome = false →
      ((updateScopeCycle m).1.columns.getD i defaultCol).issues = [] := by
  unfold updateScopeCycle
  dsimp only
  set m1 : BoardModel := { m with curScope := (m.curScope + 1) % 4 } with hm1
  have hscope : m1.curScope = (m.curScope + 1) % 4 := rfl
  set results := m1.columns.map (cycleColumnStep m1) with hres
  have hreslen : results.length = m.columns.length := by
    rw [hres, List.length_map]
  have hresD : ∀ i, i < m.columns.length →
      results.getD i (defaultCol, false) =
        cycleColumnStep m1 (m.columns.getD i defaultCol) := by
    intro i hi
    rw [hres]
    exact getD_map_lt _ _ i hi _ _
  have hnone : ∀ i, i < m.columns.length →
      ((m.columns.getD i defaultCol).allByScope ((m.curScope + 1) % 4)).isSome = false →
      (m.columns.getD i defaultCol).allByScope m1.curScope = Option.none := by
    intro i hi hf
    rw [hscope]
    cases hopt : (m.columns.getD i defaultCol).allByScope ((m.curScope + 1) % 4) with
    | none => rfl
    | some v => rw [hopt] at hf; simp at hf
  have hpred : ∀ i, i < m.columns.length →
      ((m.columns.getD i defaultCol).allByScope ((m.curScope + 1) % 4)).isSome = false →
      (results.getD i (defaultCol, false)).2 = true := by
    intro i hi hf
    rw [hresD i hi, cycleColumnStep_missing m1 _ (hnone i hi hf)]
  set missing := (List.range results.length).filter
    (fun i => (results.getD i (defaultCol, false)).2) with hmissdef
  have hjmem : ∃ j, j ∈ missing := by
    rcases hmiss with ⟨j, hj, hjf⟩
    refine ⟨j, ?_⟩
    rw [hmissdef]
    rw [List.mem_filter]
    exact ⟨List.mem_range.mpr (by rw [hreslen]; exact hj), hpred j hj hjf⟩
  have hne : missing ≠ [] := by
    rcases hjmem with ⟨j, hj⟩
    exact List.ne_nil_of_mem hj
  rw [if_neg (fun h => hne (List.isEmpty_iff.mp h))]
  refine ⟨by trivial, ?_, ?_⟩
  · simp [hreslen]
  · intro i hi hf
    have hilt : i < (results.map (fun r => r.1)).length := by
      rw [List.length_map, hreslen]; exact hi
    rw [getD_map_lt _ _ i (by simpa using hilt) _ 0]
    rw [getD_range_lt _ i (by simpa using hilt) 0]
    have hcont : missing.contains i = true := by
      have : i ∈ missing := by
        rw [hmissdef, List.mem_filter]
        exact ⟨List.mem_range.mpr (by rw [hreslen]; exact hi), hpred i hi hf⟩
      simpa using this
    rw [hcont]
    simp

/-- Witness for `scope_cycle_cached` on a fully cached three-column board. -/
theorem scope_cycle_cached_witness :
    (updateScopeCycle w8Model).2 = BoardCmd.none ∧
    (updateScopeCycle w8Model).1.columns.length = w8Model.columns.length ∧
    ∀ i, i < w8Model.columns.length →
      ((updateScopeCycle w8Model).1.columns.getD i defaultCol).issues =
        filterAndGroupColumn (w8Model.columns.getD i defaultCol).title
          (((w8Model.columns.getD i defaultCol).allByScope
            ((w8Model.curScope + 1) % 4)).getD [])
          w8Model.filter :=
  scope_cycle_cached w8Model (by decide)

/-- Witness for `scope_cycle_missing_fetch` on the C4 counterexample board. -/
theorem scope_cycle_missing_fetch_witness :
    (updateScopeCycle cex4Model).2 =
      BoardCmd.fetchScope ((cex4Model.curScope + 1) % 4)
        (List.range cex4Model.columns.length) ∧
    (updateScopeCycle cex4Model).1.columns.length = cex4Model.columns.length ∧
    ∀ i, i < cex4Model.columns.length →
      ((cex4Model.columns.getD i defaultCol).allByScope
        ((cex4Model.curScope + 1) % 4)).isSome = false →
      ((updateScopeCycle cex4Model).1.columns.getD i defaultCol).issues = [] :=
  scope_cycle_missing_fetch cex4Model ⟨1, by decide, by decide⟩

theorem get_eq_getD {α : Type} (l : List α) (i : Nat) (h : i < l.length) (d : α) :
    l.get ⟨i, h⟩ = l.getD i d := by
  rw [List.getD_eq_getElem?_getD, List.getElem?_eq_getElem h]
  rfl

theorem getD_set_self {α : Type} (l : List α) (i : Nat) (h : i < l.length)
    (a d : α) : (l.set i a).getD i d = a := by
  rw [List.getD_eq_getElem?_getD, List.getElem?_set_self h]
  rfl

theorem getD_set_ne {α : Type} (l : List α) (i j : Nat) (hne : i ≠ j)
    (a d : α) : (l.set i a).getD j d = l.getD j d := by
  rw [List.getD_eq_getElem?_getD, List.getD_eq_getElem?_getD,
    List.getElem?_set_ne hne]

theorem colAgree_refl (scope : Nat) (c : KanbanColumnView) : colAgree scope c c :=
  ⟨rfl, rfl, rfl, rfl, rfl, rfl, fun _ _ => rfl⟩

theorem lazyMergeStep_length (m : BoardModel) (scope : Nat)
    (cols : List KanbanColumnView) (e : Nat × List JiraIssue) :
    (lazyMergeStep m scope cols e).length = cols.length := by
  unfold lazyMergeStep
  by_cases h : e.1 < cols.length
  · rw [dif_pos h]
    exact List.length_set cols e.1 _
  · rw [dif_neg h]

theorem lazyFold_frame (m : BoardModel) (scope : Nat) (hne : scope ≠ m.curScope)
    (entries : List (Nat × List JiraIssue)) :
    ∀ cols : List KanbanColumnView,
      cols.length = m.columns.length →
      (∀ i, i < m.columns.length →
        colAgree scope (cols.getD i defaultCol) (m.columns.getD i defaultCol)) →
      (entries.foldl (lazyMergeStep m scope) cols).length = m.columns.length ∧
      ∀ i, i < m.columns.length →
        colAgree scope
          ((entries.foldl (lazyMergeStep m scope) cols).getD i defaultCol)
          (m.columns.getD i defaultCol) := by
  induction entries with
  | nil => intro cols hlen hag; exact ⟨hlen, hag⟩
  | cons e t ih =>
    intro cols hlen hag
    rw [List.foldl_cons]
    apply ih
    · rw [lazyMergeStep_length]
      exact hlen
    · intro i hi
      unfold lazyMergeStep
      by_cases h : e.1 < cols.length
      · rw [dif_pos h]
        dsimp only
        by_cases hij : e.1 = i
        · subst hij
          rw [getD_set_self _ _ h]
          rw [if_neg hne]
          have hbase := hag e.1 (by rw [← hlen]; exact h)
          rw [get_eq_getD cols e.1 h defaultCol]
          rcases hbase with ⟨h1, h2, h3, h4, h5, h6, h7⟩
          refine ⟨h1, h2, h3, h4, h5, h6, ?_⟩
          intro s2 hs2
          dsimp only
          rw [if_neg hs2]
          exact h7 s2 hs2
        · rw [getD_set_ne _ _ _ hij _ _]
          exact hag i hi
      · rw [dif_neg h]
        exact hag i hi

/-- C7: merging a background prefetch result for a scope different from the
current one returns no command, leaves every board-level field unchanged, and
changes each column at most in its `allByScope` entry for that scope — title,
status category, displayed issues, raw issues, cursor, offset and every other
scope's cache entry are untouched (`colAgree`). -/
theorem lazy_batch_stale_frame (m : BoardModel) (scope : Nat)
    (byIndex : List (Nat × List JiraIssue)) (hne : scope ≠ m.curScope) :
    (updateLazyBatch m scope byIndex).2 = BoardCmd.none ∧
    (updateLazyBatch m scope byIndex).1.selectedCol = m.selectedCol ∧
    (updateLazyBatch m scope byIndex).1.curScope = m.curScope ∧
    (updateLazyBatch m scope byIndex).1.filter = m.filter ∧
    (updateLazyBatch m scope byIndex).1.filtering = m.filtering ∧
    (updateLazyBatch m scope byIndex).1.loading = m.loading ∧
    (updateLazyBatch m scope byIndex).1.errS = m.errS ∧
    (updateLazyBatch m scope byIndex).1.width = m.width ∧
    (updateLazyBatch m scope byIndex).1.height = m.height ∧
    (updateLazyBatch m scope byIndex).1.columns.length = m.columns.length ∧
    ∀ i, i < m.columns.length →
      colAgree scope
        ((updateLazyBatch m scope byIndex).1.columns.getD i defaultCol)
        (m.columns.getD i defaultCol) := by
  have hfold := lazyFold_frame m scope hne byIndex m.columns rfl
    (fun i _ => colAgree_refl scope _)
  exact ⟨rfl, rfl, rfl, rfl, rfl, rfl, rfl, rfl, rfl, hfold.1, hfold.2⟩

/-- Witness for `lazy_batch_stale_frame`: a scope-1 batch merged while the
current scope is 0. -/
theorem lazy_batch_stale_frame_witness :
    (updateLazyBatch w7Model 1 [(0, [issueA])]).2 = BoardCmd.none ∧
    (updateLazyBatch w7Model 1 [(0, [issueA])]).1.selectedCol = w7Model.selectedCol ∧
    (updateLazyBatch w7Model 1 [(0, [issueA])]).1.curScope = w7Model.curScope ∧
    (updateLazyBatch w7Model 1 [(0, [issueA])]).1.filter = w7Model.filter ∧
    (updateLazyBatch w7Model 1 [(0, [issueA])]).1.filtering = w7Model.filtering ∧
    (updateLazyBatch w7Model 1 [(0, [issueA])]).1.loading = w7Model.loading ∧
    (updateLazyBatch w7Model 1 [(0, [issueA])]).1.errS = w7Model.errS ∧
    (updateLazyBatch w7Model 1 [(0, [issueA])]).1.width = w7Model.width ∧
    (updateLazyBatch w7Model 1 [(0, [issueA])]).1.height = w7Model.height ∧
    (updateLazyBatch w7Model 1 [(0, [issueA])]).1.columns.length =
      w7Model.columns.length ∧
    ∀ i, i < w7Model.columns.length →
      colAgree 1
        ((updateLazyBatch w7Model 1 [(0, [issueA])]).1.columns.getD i defaultCol)
        (w7Model.columns.getD i defaultCol) :=
  lazy_batch_stale_frame w7Model 1 [(0, [issueA])] (by decide)

theorem loadColumns_error (scope : Nat) (filter : String)
    (bad : ColumnResult) (post : List ColumnResult) (msg : String)
    (hbad : bad.err = some (FetchErr.other msg)) :
    ∀ (pre : List ColumnResult) (cols : List KanbanColumnView),
      (∀ r ∈ pre, r.err = Option.none) →
      loadColumnsConcurrently cols scope filter (pre ++ bad :: post) =
        TeaMsg.errMsg (FetchErr.other msg) := by
  intro pre
  induction pre with
  | nil =>
    intro cols _
    rw [List.nil_append]
    simp [loadColumnsConcurrently, hbad]
  | cons p t ih =>
    intro cols hok
    rw [List.cons_append]
    have hp : p.err = Option.none := hok p (List.mem_cons_self p t)
    simp only [loadColumnsConcurrently, hp]
    exact ih _ (fun r hr => hok r (List.mem_cons_of_mem p hr))

theorem loadScope_collect (scope : Nat) :
    ∀ (rs : List ColumnResult) (acc : List (Nat × List JiraIssue)),
      loadScopeConcurrently scope acc rs =
        TeaMsg.lazyBatchLoaded scope
          (acc ++ (rs.filter (fun r => r.err.isNone)).map
            (fun r => (r.index, r.issues))) := by
  intro rs
  induction rs with
  | nil => intro acc; simp [loadScopeConcurrently]
  | cons r t ih =>
    intro acc
    rw [List.filter_cons]
    cases hr : r.err with
    | none =>
      simp only [loadScopeConcurrently, hr]
      rw [ih (acc ++ [(r.index, r.issues)])]
      simp
    | some e =>
      simp only [loadScopeConcurrently, hr]
      rw [ih acc]
      simp [hr]

/-- C9: with exactly one fetch task failing with a non-timeout error (all
other results succeeding, indices pairwise distinct), the primary collect loop
returns an error message carrying that failure, for every arrival order;
under the same results the background prefetch collect loop returns normally
with a merged map holding exactly the successful results — the failing
column's index is absent and no error surfaces. -/
theorem loader_error_paths (cols : List KanbanColumnView) (scope : Nat)
    (filter : String) (pre post : List ColumnResult) (bad : ColumnResult)
    (msg : String)
    (hbad : bad.err = some (FetchErr.other msg))
    (hok : ∀ r ∈ pre ++ post, r.err = Option.none)
    (hidx : ((pre ++ bad :: post).map (fun r => r.index)).Nodup) :
    loadColumnsConcurrently cols scope filter (pre ++ bad :: post) =
      TeaMsg.errMsg (FetchErr.other msg) ∧
    loadScopeConcurrently scope [] (pre ++ bad :: post) =
      TeaMsg.lazyBatchLoaded scope
        ((pre ++ post).map (fun r => (r.index, r.issues))) ∧
    bad.index ∉ (pre ++ post).map (fun r => r.index) := by
  refine ⟨loadColumns_error scope filter bad post msg hbad pre cols
    (fun r hr => hok r (List.mem_append_left _ hr)), ?_, ?_⟩
  · rw [loadScope_collect scope (pre ++ bad :: post) []]
    have hfil : (pre ++ bad :: post).filter (fun r => r.err.isNone) = pre ++ post := by
      rw [List.filter_append, List.filter_cons]
      have hbadf : bad.err.isNone = false := by rw [hbad]; rfl
      rw [hbadf]
      have hpre : pre.filter (fun r => r.err.isNone) = pre :=
        List.filter_eq_self.mpr (fun r hr => by
          rw [hok r (List.mem_append_left _ hr)]; rfl)
      have hpost : post.filter (fun r => r.err.isNone) = post :=
        List.filter_eq_self.mpr (fun r hr => by
          rw [hok r (List.mem_append_right _ hr)]; rfl)
      rw [hpre, hpost]
      simp
    rw [hfil]
    simp
  · have h1 : ((pre.map (fun r => r.index)) ++
        bad.index :: (post.map (fun r => r.index))).Nodup := by
      simpa using hidx
    have h2 := List.nodup_middle.mp h1
    have h3 := (List.nodup_cons.mp h2).1
    simpa [List.map_append] using h3


/-- Witness for `loader_error_paths`: three tasks, the middle one failing. -/
theorem loader_error_paths_witness :
    loadColumnsConcurrently [] 0 "" ([resOk0] ++ resBad1 :: [resOk2]) =
      TeaMsg.errMsg (FetchErr.other "boom") ∧
    loadScopeConcurrently 0 [] ([resOk0] ++ resBad1 :: [resOk2]) =
      TeaMsg.lazyBatchLoaded 0
        (([resOk0] ++ [resOk2]).map (fun r => (r.index, r.issues))) ∧
    resBad1.index ∉ ([resOk0] ++ [resOk2]).map (fun r => r.index) :=
  loader_error_paths [] 0 "" [resOk0] [resOk2] resBad1 "boom"
    (by decide) (by decide) (by decide)

theorem itemsWindowCount_pos (m : BoardModel) : 1 ≤ itemsWindowCount m := by
  unfold itemsWindowCount viewportItemsHeight
  dsimp only
  split_ifs <;> omega

theorem clampWindow_inv (vh len cur off : Int) (hwh : 1 ≤ vh) (hlen : 1 ≤ len) :
    0 ≤ (clampWindow vh len cur off).1 ∧
    (clampWindow vh len cur off).1 < len ∧
    (clampWindow vh len cur off).2 ≤ (clampWindow vh len cur off).1 ∧
    (clampWindow vh len cur off).1 < (clampWindow vh len cur off).2 + vh ∧
    (clampWindow vh len cur off).2 ≤ max 0 (len - vh) := by
  unfold clampWindow
  dsimp only
  split_ifs <;> refine ⟨by omega, by omega, by omega, by omega, by omega⟩

theorem colInv_of_empty (m : BoardModel) (c : KanbanColumnView)
    (hi : c.issues = []) (hc : c.cursor = 0) (ho : c.offset = 0) :
    colInv (itemsWindowCount m) c := by
  have hwh : 1 ≤ itemsWindowCount m := itemsWindowCount_pos m
  unfold colInv
  rw [hi, hc, ho]
  refine ⟨fun h2 => absurd rfl h2, by omega, by omega, by simp⟩

theorem ensure_colInv (m : BoardModel) (c : KanbanColumnView) :
    colInv (itemsWindowCount m) (ensureCursorVisible m c) := by
  have hwh : 1 ≤ itemsWindowCount m := itemsWindowCount_pos m
  unfold ensureCursorVisible
  by_cases h0 : c.issues.length = 0
  · rw [if_pos h0]
    exact colInv_of_empty m _ (List.length_eq_zero.mp h0) rfl rfl
  · rw [if_neg h0]
    have hlen : 1 ≤ (c.issues.length : Int) := by
      have := Nat.pos_of_ne_zero h0
      exact_mod_cast this
    have hcore := clampWindow_inv (itemsWindowCount m) (c.issues.length : Int)
      c.cursor c.offset hwh hlen
    exact ⟨fun _ => ⟨hcore.1, hcore.2.1⟩, hcore.2.2.1, hcore.2.2.2.1, hcore.2.2.2.2⟩

theorem updateKeyDown_inv (m : BoardModel) (hinv : boardInv m) :
    boardInv (updateKeyDown m).1 := by
  obtain ⟨hlen, hsel, hcols⟩ := hinv
  unfold updateKeyDown
  rw [dif_pos hsel]
  dsimp only
  by_cases hmove : 0 < (m.columns.get ⟨m.selectedCol, hsel⟩).issues.length ∧
      (m.columns.get ⟨m.selectedCol, hsel⟩).cursor <
        ((m.columns.get ⟨m.selectedCol, hsel⟩).issues.length : Int) - 1
  · rw [if_pos hmove]
    refine ⟨by simpa using hlen, by simpa using hsel, ?_⟩
    intro d hd
    rcases List.mem_or_eq_of_mem_set hd with hmem | rfl
    · exact hcols d hmem
    · exact ensure_colInv m _
  · rw [if_neg hmove]
    exact ⟨hlen, hsel, hcols⟩

theorem updateKeyUp_inv (m : BoardModel) (hinv : boardInv m) :
    boardInv (updateKeyUp m).1 := by
  obtain ⟨hlen, hsel, hcols⟩ := hinv
  unfold updateKeyUp
  rw [dif_pos hsel]
  dsimp only
  by_cases hmove : 0 < (m.columns.get ⟨m.selectedCol, hsel⟩).issues.length ∧
      0 < (m.columns.get ⟨m.selectedCol, hsel⟩).cursor
  · rw [if_pos hmove]
    refine ⟨by simpa using hlen, by simpa using hsel, ?_⟩
    intro d hd
    rcases List.mem_or_eq_of_mem_set hd with hmem | rfl
    · exact hcols d hmem
    · exact ensure_colInv m _
  · rw [if_neg hmove]
    exact ⟨hlen, hsel, hcols⟩

theorem updateKeyRight_inv (m : BoardModel) (hinv : boardInv m) :
    boardInv (updateKeyRight m).1 := by
  obtain ⟨hlen, hsel, hcols⟩ := hinv
  have hpos : 0 < m.columns.length := by omega
  have hsel2 : (m.selectedCol + 1) % m.columns.length < m.columns.length :=
    Nat.mod_lt _ hpos
  unfold updateKeyRight
  rw [dif_pos hsel2]
  refine ⟨by simpa using hlen, by simpa using hsel2, ?_⟩
  intro d hd
  rcases List.mem_or_eq_of_mem_set hd with hmem | rfl
  · exact hcols d hmem
  · exact ensure_colInv _ _

theorem updateKeyLeft_inv (m : BoardModel) (hinv : boardInv m) :
    boardInv (updateKeyLeft m).1 := by
  obtain ⟨hlen, hsel, hcols⟩ := hinv
  have hpos : 0 < m.columns.length := by omega
  have hsel2 : (m.selectedCol + m.columns.length - 1) % m.columns.length <
      m.columns.length := Nat.mod_lt _ hpos
  unfold updateKeyLeft
  rw [dif_pos hsel2]
  refine ⟨by simpa using hlen, by simpa using hsel2, ?_⟩
  intro d hd
  rcases List.mem_or_eq_of_mem_set hd with hmem | rfl
  · exact hcols d hmem
  · exact ensure_colInv _ _

theorem updateResize_inv (m : BoardModel) (w h : Int) (hinv : boardInv m) :
    boardInv (updateResize m w h).1 := by
  obtain ⟨hlen, hsel, _⟩ := hinv
  unfold updateResize
  refine ⟨by simpa using hlen, by simpa using hsel, ?_⟩
  intro d hd
  rcases List.mem_map.mp hd with ⟨c0, _, rfl⟩
  exact ensure_colInv _ c0

theorem updateDataLoaded_inv (m : BoardModel) (cols : List KanbanColumnView)
    (hinv : boardInv m) (hwf : cols.length = 3) :
    boardInv (updateDataLoaded m cols).1 := by
  obtain ⟨hlen, hsel, _⟩ := hinv
  unfold updateDataLoaded
  refine ⟨by simpa using hwf, by simp; omega, ?_⟩
  intro d hd
  rcases List.mem_map.mp hd with ⟨c0, _, rfl⟩
  exact ensure_colInv _ c0

theorem stepEvent_inv (m : BoardModel) (e : BoardEvent)
    (hinv : boardInv m) (hwf : eventWF e) : boardInv (stepEvent m e) := by
  cases e with
  | keyUp => exact updateKeyUp_inv m hinv
  | keyDown => exact updateKeyDown_inv m hinv
  | keyLeft => exact updateKeyLeft_inv m hinv
  | keyRight => exact updateKeyRight_inv m hinv
  | resize w h => exact updateResize_inv m w h hinv
  | dataLoaded cols => exact updateDataLoaded_inv m cols hinv hwf

theorem initial_inv (scope : Nat) (lastCol : Int) :
    boardInv (initialBoardModel scope lastCol) := by
  unfold initialBoardModel boardInv
  dsimp only
  refine ⟨rfl, ?_, ?_⟩
  · simp only [List.length_cons, List.length_nil]
    split_ifs with h
    · omega
    · omega
  · intro c hc
    fin_cases hc <;> exact colInv_of_empty _ _ rfl rfl rfl

theorem foldl_inv : ∀ (evs : List BoardEvent) (m : BoardModel),
    boardInv m → (∀ e ∈ evs, eventWF e) →
    boardInv (evs.foldl stepEvent m) := by
  intro evs
  induction evs with
  | nil => intro m hm _; exact hm
  | cons e t ih =>
    intro m hm hwf
    rw [List.foldl_cons]
    exact ih (stepEvent m e)
      (stepEvent_inv m e hm (hwf e (List.mem_cons_self e t)))
      (fun x hx => hwf x (List.mem_cons_of_mem e hx))

/-- C5: starting from the initial board model, after any sequence of
navigation (up/down/left/right/column-switch), terminal-resize and
data-refresh events — where each refresh delivers the board's three columns —
every column satisfies the window invariant: `0 ≤ cursor < len(currentIssues)`
whenever the displayed list is non-empty, `offset ≤ cursor < offset +
windowHeight`, and `offset ≤ max(0, len - windowHeight)`.  Quantifying over
all sequences covers every prefix, i.e. the invariant holds after each
event. -/
theorem board_invariant_sequences (scope : Nat) (lastCol : Int)
    (evs : List BoardEvent) (hwf : ∀ e ∈ evs, eventWF e) :
    boardInv (evs.foldl stepEvent (initialBoardModel scope lastCol)) :=
  foldl_inv evs (initialBoardModel scope lastCol) (initial_inv scope lastCol) hwf

/-- Witness for `board_invariant_sequences` on a concrete event sequence. -/
theorem board_invariant_sequences_witness :
    boardInv
      (([BoardEvent.keyDown, BoardEvent.resize 80 24,
         BoardEvent.keyRight].foldl stepEvent) (initialBoardModel 0 0)) := by
  apply board_invariant_sequences 0 0
  intro e he
  rcases List.mem_cons.mp he with rfl | he2
  · trivial
  · rcases List.mem_cons.mp he2 with rfl | he3
    · trivial
    · rcases List.mem_cons.mp he3 with rfl | he4
      · trivial
      · cases he4
